import Mathlib

/-!
Verification of the msggen schema-ingestion core
(`contrib/msggen/msggen/utils/utils.py`): the schema bundler
(`combine_schemas`), the bundle cache (`get_schema_bundle`), the method and
notification loaders (`load_jsonrpc_method`, `load_notification`) and the
service assembler (`load_jsonrpc_service`) with its fixed manifest.

The Python code is shallowly embedded: JSON values become an inductive
`Json`, a directory becomes an optional list of named entries (an absent
directory is `none`, a file whose bytes do not parse as JSON carries
`content = none`), exceptions become `Except Err`, and the
`functools.lru_cache` memoisation becomes explicit state passing.
-/

namespace Msggen

/-- A JSON document, as produced by Python's `json.load`. -/
inductive Json where
  | null
  | bool (b : Bool)
  | num (n : Int)
  | str (s : String)
  | arr (elems : List Json)
  | obj (entries : List (String × Json))

/-- The errors the Python code can raise: a missing file or directory
(`OSError` from `iterdir`/`open`), a `json.JSONDecodeError`, a dict
`KeyError`, and indexing a non-dict (`TypeError`). -/
inductive Err where
  | sourceReadError
  | parseError (file : String)
  | keyError (key : String)
  | typeError
deriving DecidableEq

/-- One entry of a directory listing: its file name and, when the entry is a
parseable JSON file, its parsed content (`none` models a file whose bytes do
not parse, for which `json.load` raises). -/
structure DirEntry where
  name : String
  content : Option Json

/-- The bundle built by `combine_schemas`: the two ordered mappings
(`OrderedDict`) from file name to parsed schema. -/
structure SchemaBundle where
  methods : List (String × Json)
  notifications : List (String × Json)

/-- Python's `str.lower()` (the manifest names this is applied to are all
ASCII, where the two agree character by character). -/
def py_lower (s : String) : String :=
  ⟨s.data.map Char.toLower⟩

/-- Python's `str.endswith(pat)`: the characters of `pat` are a suffix of
the characters of `s`. -/
def str_endswith (s pat : String) : Bool :=
  decide (s.data.drop (s.data.length - pat.data.length) = pat.data)

/-- First-match association-list lookup, the behaviour of a Python dict
whose keys are unique. -/
def alistFind (kvs : List (String × Json)) (k : String) : Option Json :=
  match kvs with
  | [] => none
  | (k', v) :: rest => if k' = k then some v else alistFind rest k

/-- Python dict indexing: `d[k]` raises `KeyError` when `k` is absent. -/
def dictGet (kvs : List (String × Json)) (k : String) : Except Err Json :=
  match alistFind kvs k with
  | some v => .ok v
  | none => .error (.keyError k)

/-- Indexing a JSON value with a string key, `js[k]` in Python. -/
def jsonIndex (js : Json) (k : String) : Except Err Json :=
  match js with
  | .obj kvs => dictGet kvs k
  | _ => .error .typeError

/-- Lexicographic comparison of character sequences by code point, the
order Python's `str` comparison (and hence `sorted` on paths of one
directory) uses. -/
def charListLE : List Char → List Char → Bool
  | [], _ => true
  | _ :: _, [] => false
  | a :: as, b :: bs => if a = b then charListLE as bs else decide (a < b)

/-- Python's `s1 <= s2` on strings. -/
def str_le (a b : String) : Bool :=
  charListLE a.data b.data

/-- The ordering `sorted(list(schema_dir.iterdir()))` uses: paths in one
directory compare by file name. -/
def entryLE (a b : DirEntry) : Prop := str_le a.name b.name = true

instance : DecidableRel entryLE := fun a b =>
  inferInstanceAs (Decidable (str_le a.name b.name = true))

/-- `sorted(list(dir.iterdir()))`. -/
def sortDir (es : List DirEntry) : List DirEntry :=
  List.insertionSort entryLE es

/-- The filter of the methods loop of `combine_schemas`: keep a file whose
name ends in `.json`, except the auto-generated `lightning-sql.json`. -/
def methodFileFilter (n : String) : Bool :=
  str_endswith n ".json" && !(n == "lightning-sql.json")

/-- The filter of the notifications loop of `combine_schemas`: the code
checks `f.name.endswith("json")` (no dot). -/
def notificationFileFilter (n : String) : Bool :=
  str_endswith n "json"

/-- One loop of `combine_schemas` over an already sorted listing: skip
entries failing the name filter, `json.load` the rest in order, raising at
the first unparseable file. -/
def parseEntries (p : String → Bool) : List DirEntry → Except Err (List (String × Json))
  | [] => .ok []
  | e :: rest =>
    if p e.name then
      match e.content with
      | none => .error (.parseError e.name)
      | some js =>
        match parseEntries p rest with
        | .error er => .error er
        | .ok out => .ok ((e.name, js) :: out)
    else parseEntries p rest

/-- A character escaped as in Python's `json.dump` output. -/
def escapeChar (c : Char) : String :=
  if c = '"' then "\\\""
  else if c = '\\' then "\\\\"
  else if c = '\n' then "\\n"
  else if c = '\t' then "\\t"
  else if c = '\r' then "\\r"
  else String.singleton c

def escapeString (s : String) : String :=
  String.join (s.data.map escapeChar)

def quoteString (s : String) : String :=
  "\"" ++ escapeString s ++ "\""

def spaces (n : Nat) : String :=
  String.mk (List.replicate n ' ')

mutual

/-- `json.dump(·, f, indent=ind)` at nesting level `lvl`. -/
def dumpJson (ind lvl : Nat) : Json → String
  | .null => "null"
  | .bool b => if b then "true" else "false"
  | .num n => toString n
  | .str s => quoteString s
  | .arr [] => "[]"
  | .arr (x :: xs) =>
      "[\n" ++ spaces (ind * (lvl + 1)) ++ dumpJson ind (lvl + 1) x
        ++ dumpArrRest ind (lvl + 1) xs ++ "\n" ++ spaces (ind * lvl) ++ "]"
  | .obj [] => "\x7b\x7d"
  | .obj ((k, v) :: kvs) =>
      "\x7b\n" ++ spaces (ind * (lvl + 1)) ++ quoteString k ++ ": "
        ++ dumpJson ind (lvl + 1) v ++ dumpObjRest ind (lvl + 1) kvs
        ++ "\n" ++ spaces (ind * lvl) ++ "\x7d"

def dumpArrRest (ind lvl : Nat) : List Json → String
  | [] => ""
  | x :: xs => ",\n" ++ spaces (ind * lvl) ++ dumpJson ind lvl x
      ++ dumpArrRest ind lvl xs

def dumpObjRest (ind lvl : Nat) : List (String × Json) → String
  | [] => ""
  | (k, v) :: kvs => ",\n" ++ spaces (ind * lvl) ++ quoteString k ++ ": "
      ++ dumpJson ind lvl v ++ dumpObjRest ind lvl kvs

end

/-- The JSON document `combine_schemas` serialises: the bundle `OrderedDict`
with its two keys inserted in this order. -/
def bundleJson (b : SchemaBundle) : Json :=
  Json.obj [("methods", Json.obj b.methods), ("notifications", Json.obj b.notifications)]

/-- `combine_schemas(schema_dir, dest)`.  The two directory listings are the
inputs (`none` models a directory that does not exist, so that `iterdir`
raises).  The first component is the returned bundle or the raised error;
the second component is what was written to `dest` (`none`: nothing was
written, the write happens only after every file parsed). -/
def combine_schemas (schemaDir : Option (List DirEntry))
    (notificationDir : Option (List DirEntry)) :
    Except Err SchemaBundle × Option String :=
  match schemaDir with
  | none => (.error .sourceReadError, none)
  | some mfiles =>
    match parseEntries methodFileFilter (sortDir mfiles) with
    | .error e => (.error e, none)
    | .ok methods =>
      match notificationDir with
      | none => (.error .sourceReadError, none)
      | some nfiles =>
        match parseEntries notificationFileFilter (sortDir nfiles) with
        | .error e => (.error e, none)
        | .ok notifs =>
          let bundle : SchemaBundle := ⟨methods, notifs⟩
          (.ok bundle, some (dumpJson 2 0 (bundleJson bundle)))

/-- The memoisation state of `@functools.lru_cache(maxsize=1)` on the
zero-argument `get_schema_bundle`: the cached result, if any.  `lru_cache`
does not cache a raised exception. -/
structure CacheState where
  cached : Option Json

/-- `get_schema_bundle()`.  `storage` is the underlying
`json.load(resources.open_text(...))` step; the cache state is threaded
explicitly. -/
def get_schema_bundle (storage : Unit → Except Err Json) (st : CacheState) :
    Except Err (Json × CacheState) :=
  match st.cached with
  | some b => .ok (b, st)
  | none =>
    match storage () with
    | .ok b => .ok (b, ⟨some b⟩)
    | .error e => .error e

/-- Modelled from the spec: `CompositeField` (in `msggen.model`, not under
`src/`) is the type-tree node built from a raw schema subtree; it carries a
mutable `typename`. -/
structure CompositeField where
  typename : String
  fields : Json
  path : String

/-- Modelled from the spec: `CompositeField.from_js` (in `msggen.model`, not
under `src/`) builds a node from a schema subtree and a path hint; its base
`typename` is derived from the path — the spec's end-to-end scenario (method
`Getinfo` yields `GetinfoRequest`/`GetinfoResponse`, notification manifest
names yield `Stream<TypeName>Request`) fixes the base name to be the path
itself. -/
def CompositeField.from_js (js : Json) (path : String) : CompositeField :=
  ⟨path, js, path⟩

/-- `Method(name, request, response)` of `msggen.model`. -/
structure Method where
  name : String
  request : CompositeField
  response : CompositeField

/-- `Notification(name, typename, request, response)` of `msggen.model`;
`TypeName` wraps a string and is modelled as `String`. -/
structure Notification where
  name : String
  typename : String
  request : CompositeField
  response : CompositeField

/-- `Service(name, methods, notifications)` of `msggen.model`, with the
`includes` attribute set afterwards. -/
structure Service where
  name : String
  methods : List Method
  notifications : List Notification
  includes : List String

/-- `load_jsonrpc_method(name)`, with the cached schema bundle passed
explicitly. -/
def load_jsonrpc_method (schema : SchemaBundle) (name : String) :
    Except Err Method :=
  let rpc_name := "lightning-" ++ py_lower name ++ ".json"
  match dictGet schema.methods rpc_name with
  | .error e => .error e
  | .ok js =>
    match jsonIndex js "request" with
    | .error e => .error e
    | .ok reqJs =>
      match jsonIndex js "response" with
      | .error e => .error e
      | .ok respJs =>
        let request := CompositeField.from_js reqJs name
        let response := CompositeField.from_js respJs name
        let request := { request with typename := request.typename ++ "Request" }
        let response := { response with typename := response.typename ++ "Response" }
        .ok { name := name, request := request, response := response }

/-- `load_notification(name, typename)`, with the cached schema bundle
passed explicitly. -/
def load_notification (schema : SchemaBundle) (name : String)
    (typename : String) : Except Err Notification :=
  let req_file := py_lower name ++ ".request.json"
  let resp_file := py_lower name ++ ".schema.json"
  match dictGet schema.notifications req_file with
  | .error e => .error e
  | .ok reqJs =>
    match dictGet schema.notifications resp_file with
    | .error e => .error e
    | .ok respJs =>
      let request := CompositeField.from_js reqJs name
      let response := CompositeField.from_js respJs name
      let request := { request with typename := "Stream" ++ typename ++ "Request" }
      let response := { response with typename := typename ++ "Notification" }
      .ok { name := name, typename := typename,
            request := request, response := response }

/-- The fixed method manifest of `load_jsonrpc_service` (its `method_names`
local), active entries only; the Python source keeps seven historical names
commented out (`funderupdate`, `multiwithdraw`, `parsefeerate`,
`ListConfigs`, `check`, `notifications`, `help`), which are a design record,
not data. -/
def method_names : List String := [
  "Getinfo", "ListPeers", "ListFunds", "SendPay", "ListChannels",
  "AddGossip", "AutoCleanInvoice", "AutoClean-Once", "AutoClean-Status",
  "CheckMessage", "Close", "Connect", "CreateInvoice", "Datastore",
  "DatastoreUsage", "CreateOnion", "DelDatastore", "DelInvoice", "Invoice",
  "ListDatastore", "ListInvoices", "SendOnion", "ListSendPays",
  "ListTransactions", "Pay", "ListNodes", "WaitAnyInvoice", "WaitInvoice",
  "WaitSendPay", "NewAddr", "Withdraw", "KeySend", "FundPsbt", "SendPsbt",
  "SignPsbt", "UtxoPsbt", "TxDiscard", "TxPrepare", "TxSend",
  "ListPeerChannels", "ListClosedChannels", "DecodePay", "Decode", "DelPay",
  "DelForward", "DisableOffer", "Disconnect", "Feerates", "FetchInvoice",
  "FundChannel_Cancel", "FundChannel_Complete", "FundChannel",
  "FundChannel_Start", "GetLog", "GetRoute", "ListForwards", "ListOffers",
  "ListPays", "ListHtlcs", "MultiFundChannel", "Offer", "OpenChannel_Abort",
  "OpenChannel_Bump", "OpenChannel_Init", "OpenChannel_Signed",
  "OpenChannel_Update", "Ping", "Plugin", "RenePayStatus", "RenePay",
  "ReserveInputs", "SendCustomMsg", "SendInvoice", "SendOnionMessage",
  "SetChannel", "SetConfig", "SetPsbtVersion", "SignInvoice", "SignMessage",
  "Splice_Init", "Splice_Signed", "Splice_Update", "UnreserveInputs",
  "UpgradeWallet", "WaitBlockHeight", "Wait", "Stop", "PreApproveKeysend",
  "PreApproveInvoice", "StaticBackup", "Bkpr-ChannelsApy",
  "Bkpr-DumpIncomeCsv", "Bkpr-Inspect", "Bkpr-ListAccountEvents",
  "Bkpr-ListBalances", "Bkpr-ListIncome"]

/-- The fixed notification manifest of `load_jsonrpc_service` (its
`notification_names` list of `name`/`typename` dicts). -/
def notification_names : List (String × String) := [
  ("block_added", "BlockAdded"),
  ("channel_open_failed", "ChannelOpenFailed"),
  ("channel_opened", "ChannelOpened"),
  ("connect", "Connect"),
  ("custommsg", "CustomMsg")]

/-- A Python list comprehension `[f(x) for x in l]` over a fallible `f`:
elements are built left to right, the first raised error aborts the whole
comprehension. -/
def mapE (f : α → Except Err β) : List α → Except Err (List β)
  | [] => .ok []
  | a :: l =>
    match f a with
    | .error e => .error e
    | .ok b =>
      match mapE f l with
      | .error e => .error e
      | .ok bs => .ok (b :: bs)

/-- `load_jsonrpc_service()`, with the cached schema bundle passed
explicitly (the Python body reads it through `get_schema_bundle` inside the
two loaders). -/
def load_jsonrpc_service (schema : SchemaBundle) : Except Err Service :=
  match mapE (fun n => load_jsonrpc_method schema n) method_names with
  | .error e => .error e
  | .ok methods =>
    match mapE (fun p => load_notification schema p.1 p.2) notification_names with
    | .error e => .error e
    | .ok notifications =>
      .ok { name := "Node", methods := methods,
            notifications := notifications, includes := ["primitives.proto"] }

/-- `Except` success as a boolean, `isinstance(r, Ok)` so to speak. -/
def isOkE (r : Except Err α) : Bool :=
  match r with
  | .ok _ => true
  | .error _ => false

/-- A complete concrete schema bundle: one `lightning-<name>.json` entry
with `request`/`response` subtrees per manifest method, and the
`.request.json`/`.schema.json` pair per manifest notification.  Used to
instantiate the theorems below on a concrete input. -/
def fullBundle : SchemaBundle :=
  ⟨method_names.map (fun n =>
      ("lightning-" ++ py_lower n ++ ".json",
       Json.obj [("request", Json.obj []), ("response", Json.obj [])])),
   notification_names.flatMap (fun p =>
      [(py_lower p.1 ++ ".request.json", Json.obj []),
       (py_lower p.1 ++ ".schema.json", Json.obj [])])⟩

/-- A method schema document with `request` and `response` subtrees. -/
def getinfoSchema : Json :=
  Json.obj [("request", Json.obj []), ("response", Json.obj [])]

/-- A bundle holding one method schema, for concrete instantiations. -/
def smallMethodBundle : SchemaBundle :=
  ⟨[("lightning-getinfo.json", getinfoSchema)], []⟩

/-- A bundle holding the two schema entries of the `block_added`
notification, for concrete instantiations. -/
def blockAddedBundle : SchemaBundle :=
  ⟨[], [("block_added.request.json", Json.obj []),
        ("block_added.schema.json", Json.obj [])]⟩

/-- The bundle with no entries at all, for concrete instantiations. -/
def emptyBundle : SchemaBundle := ⟨[], []⟩

/-! ### Order lemmas for the directory sort -/

theorem string_ext {s t : String} (h : s.data = t.data) : s = t := by
  cases s; cases t; exact congrArg String.mk h

theorem charListLE_total : ∀ as bs, charListLE as bs = true ∨ charListLE bs as = true
  | [], _ => Or.inl rfl
  | _ :: _, [] => Or.inr rfl
  | a :: as, b :: bs => by
    by_cases hab : a = b
    · subst hab
      simpa [charListLE] using charListLE_total as bs
    · rcases lt_trichotomy a b with h | h | h
      · left; simp [charListLE, hab, h]
      · exact absurd h hab
      · right
        have hba : b ≠ a := fun e => hab e.symm
        simp [charListLE, hba, h]

theorem charListLE_trans : ∀ as bs cs, charListLE as bs = true →
    charListLE bs cs = true → charListLE as cs = true
  | [], _, _, _, _ => rfl
  | _ :: _, [], _, h1, _ => by simp [charListLE] at h1
  | _ :: _, _ :: _, [], _, h2 => by simp [charListLE] at h2
  | a :: as, b :: bs, c :: cs, h1, h2 => by
    by_cases hab : a = b
    · subst hab
      by_cases hbc : a = c
      · subst hbc
        simp only [charListLE, if_pos rfl] at h1 h2 ⊢
        exact charListLE_trans as bs cs h1 h2
      · have hc : a < c := by simpa [charListLE, hbc] using h2
        simp [charListLE, hbc, hc]
    · have ha : a < b := by simpa [charListLE, hab] using h1
      by_cases hbc : b = c
      · subst hbc
        simp [charListLE, hab, ha]
      · have hc : b < c := by simpa [charListLE, hbc] using h2
        have hac : a < c := lt_trans ha hc
        simp [charListLE, ne_of_lt hac, hac]

theorem charListLE_antisymm : ∀ as bs, charListLE as bs = true →
    charListLE bs as = true → as = bs
  | [], [], _, _ => rfl
  | [], _ :: _, _, h2 => by simp [charListLE] at h2
  | _ :: _, [], h1, _ => by simp [charListLE] at h1
  | a :: as, b :: bs, h1, h2 => by
    by_cases hab : a = b
    · subst hab
      simp only [charListLE, if_pos rfl] at h1 h2
      rw [charListLE_antisymm as bs h1 h2]
    · have hba : ¬ (b = a) := fun e => hab e.symm
      have h1' : a < b := by simpa [charListLE, hab] using h1
      have h2' : b < a := by simpa [charListLE, hba] using h2
      exact absurd h1' (asymm h2')

instance : IsTotal DirEntry entryLE :=
  ⟨fun a b => charListLE_total a.name.data b.name.data⟩

instance : IsTrans DirEntry entryLE :=
  ⟨fun a b c => charListLE_trans a.name.data b.name.data c.name.data⟩

/-- The strict version of `entryLE`, used to see that sorting a listing with
distinct file names has a unique result. -/
def entryLT (a b : DirEntry) : Prop := entryLE a b ∧ a.name ≠ b.name

instance : IsAntisymm DirEntry entryLT :=
  ⟨fun a b h1 h2 =>
    absurd (string_ext (charListLE_antisymm a.name.data b.name.data h1.1 h2.1)) h1.2⟩

theorem sortDir_perm (es : List DirEntry) : (sortDir es).Perm es :=
  List.perm_insertionSort entryLE es

theorem sortDir_sorted (es : List DirEntry) : (sortDir es).Sorted entryLE :=
  List.sorted_insertionSort entryLE es

theorem sortDir_eq_of_perm (l1 l2 : List DirEntry) (h : l1.Perm l2)
    (hd : (l1.map DirEntry.name).Nodup) : sortDir l1 = sortDir l2 := by
  have hperm : (sortDir l1).Perm (sortDir l2) :=
    (sortDir_perm l1).trans (h.trans (sortDir_perm l2).symm)
  have hd1 : ((sortDir l1).map DirEntry.name).Nodup :=
    (((sortDir_perm l1).map DirEntry.name).nodup_iff).mpr hd
  have hd2 : ((sortDir l2).map DirEntry.name).Nodup :=
    ((hperm.map DirEntry.name).nodup_iff).mp hd1
  have hs1 : (sortDir l1).Pairwise entryLT :=
    ((sortDir_sorted l1).and (List.pairwise_map.mp hd1)).imp (fun h => h)
  have hs2 : (sortDir l2).Pairwise entryLT :=
    ((sortDir_sorted l2).and (List.pairwise_map.mp hd2)).imp (fun h => h)
  exact List.eq_of_perm_of_sorted hperm hs1 hs2

theorem sortDir_cons (e : DirEntry) (l : List DirEntry) :
    sortDir (e :: l) = List.orderedInsert entryLE e (sortDir l) := rfl

/-! ### Behaviour of one bundling loop -/

theorem parseEntries_ok (p : String → Bool) :
    ∀ l : List DirEntry, (∀ e ∈ l, p e.name = true → e.content.isSome = true) →
    ∃ kvs, parseEntries p l = .ok kvs ∧
      kvs.map Prod.fst = (l.map DirEntry.name).filter p
  | [], _ => ⟨[], rfl, rfl⟩
  | e :: rest, h => by
    obtain ⟨kvs, hk, hmap⟩ :=
      parseEntries_ok p rest (fun x hx => h x (List.mem_cons_of_mem _ hx))
    by_cases hp : p e.name = true
    · have hs : e.content.isSome = true := h e (List.mem_cons_self _ _) hp
      obtain ⟨js, hjs⟩ := Option.isSome_iff_exists.mp hs
      refine ⟨(e.name, js) :: kvs, ?_, ?_⟩
      · simp [parseEntries, hp, hjs, hk]
      · simp [hmap, hp]
    · refine ⟨kvs, ?_, ?_⟩
      · simp [parseEntries, hp, hk]
      · simp only [List.map_cons, List.filter_cons]
        simp [hmap, hp]

theorem parseEntries_error (p : String → Bool) :
    ∀ l : List DirEntry, ∀ e, e ∈ l → p e.name = true → e.content = none →
    ∃ er, parseEntries p l = .error er
  | [], e, hmem, _, _ => absurd hmem (List.not_mem_nil e)
  | a :: rest, e, hmem, hp, hc => by
    rcases List.mem_cons.mp hmem with rfl | hmem'
    · exact ⟨.parseError e.name, by simp [parseEntries, hp, hc]⟩
    · by_cases hpa : p a.name = true
      · cases hca : a.content with
        | none => exact ⟨.parseError a.name, by simp [parseEntries, hpa, hca]⟩
        | some js =>
          obtain ⟨er, her⟩ := parseEntries_error p rest e hmem' hp hc
          exact ⟨er, by simp [parseEntries, hpa, hca, her]⟩
      · obtain ⟨er, her⟩ := parseEntries_error p rest e hmem' hp hc
        exact ⟨er, by simp [parseEntries, hpa, her]⟩

theorem parseEntries_skip (p : String → Bool) (e : DirEntry) (he : p e.name = false) :
    ∀ l : List DirEntry,
      parseEntries p (List.orderedInsert entryLE e l) = parseEntries p l
  | [] => by simp [List.orderedInsert, parseEntries, he]
  | a :: l => by
    by_cases hle : entryLE e a
    · simp [List.orderedInsert, hle, parseEntries, he]
    · have ih := parseEntries_skip p e he l
      simp only [List.orderedInsert, if_neg hle]
      by_cases hpa : p a.name = true
      · cases hca : a.content with
        | none => simp [parseEntries, hpa, hca]
        | some js => simp [parseEntries, hpa, hca, ih]
      · simp [parseEntries, hpa, ih]

theorem sortDir_keys_sorted (p : String → Bool) (l : List DirEntry) :
    List.Sorted (fun a b => str_le a b = true)
      (((sortDir l).map DirEntry.name).filter p) := by
  have h1 : ((sortDir l).map DirEntry.name).Pairwise (fun a b => str_le a b = true) :=
    List.pairwise_map.mpr ((sortDir_sorted l).imp (fun h => h))
  exact h1.filter p

/-! ### Behaviour of the loaders and the assembler -/

theorem load_jsonrpc_method_name (schema : SchemaBundle) (n : String) (m : Method)
    (h : load_jsonrpc_method schema n = .ok m) : m.name = n := by
  simp only [load_jsonrpc_method] at h
  split at h
  · cases h
  · split at h
    · cases h
    · split at h
      · cases h
      · cases h; rfl

theorem load_notification_name (schema : SchemaBundle) (n t : String)
    (x : Notification) (h : load_notification schema n t = .ok x) : x.name = n := by
  simp only [load_notification] at h
  split at h
  · cases h
  · split at h
    · cases h
    · cases h; rfl

theorem mapE_ok_of_forall (f : α → Except Err β) :
    ∀ l : List α, (∀ a ∈ l, isOkE (f a) = true) →
    ∃ bs, mapE f l = .ok bs ∧ List.Forall₂ (fun a b => f a = .ok b) l bs
  | [], _ => ⟨[], rfl, List.Forall₂.nil⟩
  | a :: l, h => by
    have ha := h a (List.mem_cons_self a l)
    cases hfa : f a with
    | error e => rw [hfa] at ha; simp [isOkE] at ha
    | ok b =>
      obtain ⟨bs, hbs, hf⟩ :=
        mapE_ok_of_forall f l (fun x hx => h x (List.mem_cons_of_mem _ hx))
      exact ⟨b :: bs, by simp [mapE, hfa, hbs], List.Forall₂.cons hfa hf⟩

theorem mapE_forall_of_ok (f : α → Except Err β) :
    ∀ l : List α, ∀ bs, mapE f l = .ok bs →
    List.Forall₂ (fun a b => f a = .ok b) l bs
  | [], bs, h => by
    simp only [mapE] at h
    cases h
    exact List.Forall₂.nil
  | a :: l, bs, h => by
    simp only [mapE] at h
    split at h
    · cases h
    · rename_i b hfa
      split at h
      · cases h
      · rename_i bs' hbs
        cases h
        exact List.Forall₂.cons hfa (mapE_forall_of_ok f l bs' hbs)

theorem forall2_isOkE (f : α → Except Err β) :
    ∀ l : List α, ∀ bs : List β,
    List.Forall₂ (fun a b => f a = .ok b) l bs → ∀ a ∈ l, isOkE (f a) = true
  | _, _, .nil, a, ha => absurd ha (List.not_mem_nil a)
  | _, _, .cons h1 h2, a, ha => by
    rcases List.mem_cons.mp ha with rfl | ha'
    · rw [h1]; rfl
    · exact forall2_isOkE f _ _ h2 a ha'

theorem methods_map_name (schema : SchemaBundle) :
    ∀ l : List String, ∀ ms : List Method,
    List.Forall₂ (fun n m => load_jsonrpc_method schema n = .ok m) l ms →
    ms.map Method.name = l
  | _, _, .nil => rfl
  | _, _, .cons h1 h2 => by
    simp only [List.map_cons]
    rw [load_jsonrpc_method_name _ _ _ h1, methods_map_name schema _ _ h2]

theorem notifications_map_name (schema : SchemaBundle) :
    ∀ l : List (String × String), ∀ ns : List Notification,
    List.Forall₂ (fun p x => load_notification schema p.1 p.2 = .ok x) l ns →
    ns.map Notification.name = l.map Prod.fst
  | _, _, .nil => rfl
  | _, _, .cons h1 h2 => by
    simp only [List.map_cons]
    rw [load_notification_name _ _ _ _ h1, notifications_map_name schema _ _ h2]

/-! ### The claims -/

/-- C1: for every method name `M` whose bundle key
`lightning-<lowercased M>.json` is present with `request` and `response`
subtrees, `load_jsonrpc_method M` returns a `Method` whose request type name
(`M` with the `Request` suffix) differs from its response type name (`M`
with the `Response` suffix); and across all methods of the manifest no two
methods share a request type name or a response type name. -/
theorem c1_name_disambiguation (schema : SchemaBundle) (M : String)
    (js req resp : Json)
    (h1 : alistFind schema.methods ("lightning-" ++ py_lower M ++ ".json") = some js)
    (h2 : jsonIndex js "request" = .ok req)
    (h3 : jsonIndex js "response" = .ok resp) :
    (∃ m : Method, load_jsonrpc_method schema M = .ok m ∧
      m.request.typename = M ++ "Request" ∧
      m.response.typename = M ++ "Response" ∧
      m.request.typename ≠ m.response.typename) ∧
    (method_names.map (fun n => n ++ "Request")).Nodup ∧
    (method_names.map (fun n => n ++ "Response")).Nodup := by
  refine ⟨⟨{ name := M,
             request := ⟨M ++ "Request", req, M⟩,
             response := ⟨M ++ "Response", resp, M⟩ }, ?_, rfl, rfl, ?_⟩, ?_, ?_⟩
  · simp [load_jsonrpc_method, dictGet, h1, h2, h3, CompositeField.from_js]
  · intro h
    have hl := congrArg String.length h
    simp only [String.length_append] at hl
    have e1 : ("Request" : String).length = 7 := rfl
    have e2 : ("Response" : String).length = 8 := rfl
    rw [e1, e2] at hl
    omega
  · decide
  · decide

/-- Witness for C1: the disambiguation at the concrete method `Getinfo` in a
one-method bundle. -/
theorem c1_name_disambiguation_witness :
    (∃ m : Method, load_jsonrpc_method smallMethodBundle "Getinfo" = .ok m ∧
      m.request.typename = "Getinfo" ++ "Request" ∧
      m.response.typename = "Getinfo" ++ "Response" ∧
      m.request.typename ≠ m.response.typename) ∧
    (method_names.map (fun n => n ++ "Request")).Nodup ∧
    (method_names.map (fun n => n ++ "Response")).Nodup :=
  c1_name_disambiguation smallMethodBundle "Getinfo" getinfoSchema
    (Json.obj []) (Json.obj []) rfl rfl rfl

/-- C2: for every notification name and typename whose two bundle keys
`<lowercased name>.request.json` and `<lowercased name>.schema.json` are
present, `load_notification` returns a `Notification` whose request type
name is `Stream<typename>Request` and whose response type name is
`<typename>Notification`. -/
theorem c2_notification_typenames (schema : SchemaBundle) (nname tname : String)
    (reqJs respJs : Json)
    (h1 : alistFind schema.notifications (py_lower nname ++ ".request.json") = some reqJs)
    (h2 : alistFind schema.notifications (py_lower nname ++ ".schema.json") = some respJs) :
    ∃ x : Notification, load_notification schema nname tname = .ok x ∧
      x.request.typename = "Stream" ++ tname ++ "Request" ∧
      x.response.typename = tname ++ "Notification" := by
  refine ⟨{ name := nname, typename := tname,
            request := ⟨"Stream" ++ tname ++ "Request", reqJs, nname⟩,
            response := ⟨tname ++ "Notification", respJs, nname⟩ }, ?_, rfl, rfl⟩
  simp [load_notification, dictGet, h1, h2, CompositeField.from_js]

/-- Witness for C2: the `block_added`/`BlockAdded` scenario of the spec,
yielding `StreamBlockAddedRequest` and `BlockAddedNotification`. -/
theorem c2_notification_typenames_witness :
    ∃ x : Notification,
      load_notification blockAddedBundle "block_added" "BlockAdded" = .ok x ∧
      x.request.typename = "StreamBlockAddedRequest" ∧
      x.response.typename = "BlockAddedNotification" := by
  obtain ⟨x, hx, h1, h2⟩ := c2_notification_typenames blockAddedBundle
    "block_added" "BlockAdded" (Json.obj []) (Json.obj []) rfl rfl
  exact ⟨x, hx, by rw [h1]; decide, by rw [h2]; decide⟩

/-- C3: a method name whose computed key is absent from the bundle's methods
mapping makes `load_jsonrpc_method` fail with a lookup error (`KeyError` on
that key), and a notification name either of whose two computed keys is
absent makes `load_notification` fail with a lookup error; neither returns a
(partial) result. -/
theorem c3_lookup_failure (schema : SchemaBundle) (M nname tname : String)
    (hM : alistFind schema.methods ("lightning-" ++ py_lower M ++ ".json") = none)
    (hN : alistFind schema.notifications (py_lower nname ++ ".request.json") = none ∨
          alistFind schema.notifications (py_lower nname ++ ".schema.json") = none) :
    load_jsonrpc_method schema M =
      .error (.keyError ("lightning-" ++ py_lower M ++ ".json")) ∧
    (∃ k, load_notification schema nname tname = .error (.keyError k)) := by
  constructor
  · simp [load_jsonrpc_method, dictGet, hM]
  · rcases hN with hN | hN
    · exact ⟨py_lower nname ++ ".request.json",
        by simp [load_notification, dictGet, hN]⟩
    · cases hreq : alistFind schema.notifications (py_lower nname ++ ".request.json") with
      | none => exact ⟨py_lower nname ++ ".request.json",
          by simp [load_notification, dictGet, hreq]⟩
      | some v => exact ⟨py_lower nname ++ ".schema.json",
          by simp [load_notification, dictGet, hreq, hN]⟩

/-- Witness for C3: `load_method("DoesNotExist")` and
`load_notification("ghost", "Ghost")` against the empty bundle. -/
theorem c3_lookup_failure_witness :
    load_jsonrpc_method emptyBundle "DoesNotExist" =
      .error (.keyError ("lightning-" ++ py_lower "DoesNotExist" ++ ".json")) ∧
    (∃ k, load_notification emptyBundle "ghost" "Ghost" = .error (.keyError k)) :=
  c3_lookup_failure emptyBundle "DoesNotExist" "ghost" "Ghost" rfl (Or.inl rfl)

/-- C4: `get_schema_bundle` is idempotent within one process: after a first
successful call, every subsequent call returns the identical in-memory value
without invoking the storage layer again — the second call succeeds and
returns the same value for an arbitrary second storage function, in
particular one that fails. -/
theorem c4_cache_singleton (storage storage2 : Unit → Except Err Json)
    (b : Json) (st' : CacheState)
    (h : get_schema_bundle storage ⟨none⟩ = .ok (b, st')) :
    get_schema_bundle storage2 st' = .ok (b, st') := by
  simp only [get_schema_bundle] at h
  cases hs : storage () with
  | error e => rw [hs] at h; cases h
  | ok v => rw [hs] at h; cases h; rfl

/-- C5 counterexample: the claim requires the notifications mapping to hold
exactly the files passing the `.json` extension filter, but the code's
notification filter is `endswith("json")` without the dot: a notification
subdirectory holding the single file `xjson` — which does not end in
`.json` — yields a bundle whose notifications mapping nevertheless has an
entry for it. -/
theorem c5_counterexample :
    str_endswith "xjson" ".json" = false ∧
    (combine_schemas (some []) (some [⟨"xjson", some Json.null⟩])).1 =
      .ok ⟨[], [("xjson", Json.null)]⟩ :=
  ⟨rfl, rfl⟩

/-- C5 (amended): the methods mapping of the bundle has exactly one entry
per file of the directory whose name ends in `.json` except the excluded
`lightning-sql.json`, and no others; and the notifications mapping has
exactly one entry per file of the notification subdirectory whose name ends
in `json` (the code's notification filter checks `endswith("json")`, without
the dot), with no exclusion, and no others. -/
theorem c5_completeness (mfiles nfiles : List DirEntry)
    (hm : ∀ e ∈ mfiles, methodFileFilter e.name = true → e.content.isSome = true)
    (hn : ∀ e ∈ nfiles, notificationFileFilter e.name = true → e.content.isSome = true)
    (hmd : (mfiles.map DirEntry.name).Nodup)
    (hnd : (nfiles.map DirEntry.name).Nodup) :
    ∃ b, (combine_schemas (some mfiles) (some nfiles)).1 = .ok b ∧
      (b.methods.map Prod.fst).Nodup ∧
      (∀ k, k ∈ b.methods.map Prod.fst ↔
        (∃ e ∈ mfiles, e.name = k) ∧ methodFileFilter k = true) ∧
      (b.notifications.map Prod.fst).Nodup ∧
      (∀ k, k ∈ b.notifications.map Prod.fst ↔
        (∃ e ∈ nfiles, e.name = k) ∧ notificationFileFilter k = true) := by
  obtain ⟨mkvs, hmk, hmmap⟩ := parseEntries_ok methodFileFilter (sortDir mfiles)
    (fun e he => hm e ((sortDir_perm mfiles).subset he))
  obtain ⟨nkvs, hnk, hnmap⟩ := parseEntries_ok notificationFileFilter (sortDir nfiles)
    (fun e he => hn e ((sortDir_perm nfiles).subset he))
  have hmd' : ((sortDir mfiles).map DirEntry.name).Nodup :=
    (((sortDir_perm mfiles).map DirEntry.name).nodup_iff).mpr hmd
  have hnd' : ((sortDir nfiles).map DirEntry.name).Nodup :=
    (((sortDir_perm nfiles).map DirEntry.name).nodup_iff).mpr hnd
  refine ⟨⟨mkvs, nkvs⟩, ?_, ?_, ?_, ?_, ?_⟩
  · simp [combine_schemas, hmk, hnk]
  · rw [hmmap]; exact hmd'.filter _
  · intro k
    rw [hmmap, List.mem_filter]
    constructor
    · rintro ⟨hk, hp⟩
      obtain ⟨e, he, rfl⟩ := List.mem_map.mp hk
      exact ⟨⟨e, (sortDir_perm mfiles).subset he, rfl⟩, hp⟩
    · rintro ⟨⟨e, he, rfl⟩, hp⟩
      exact ⟨List.mem_map.mpr ⟨e, (sortDir_perm mfiles).mem_iff.mpr he, rfl⟩, hp⟩
  · rw [hnmap]; exact hnd'.filter _
  · intro k
    rw [hnmap, List.mem_filter]
    constructor
    · rintro ⟨hk, hp⟩
      obtain ⟨e, he, rfl⟩ := List.mem_map.mp hk
      exact ⟨⟨e, (sortDir_perm nfiles).subset he, rfl⟩, hp⟩
    · rintro ⟨⟨e, he, rfl⟩, hp⟩
      exact ⟨List.mem_map.mpr ⟨e, (sortDir_perm nfiles).mem_iff.mpr he, rfl⟩, hp⟩

/-- Witness for the amended C5 at a concrete pair of listings: a method
directory holding one schema file, the excluded `lightning-sql.json`, and a
`notification` subdirectory entry; a notification directory holding one
schema file. -/
theorem c5_completeness_witness :
    ∃ b, (combine_schemas
        (some [⟨"lightning-getinfo.json", some getinfoSchema⟩,
               ⟨"lightning-sql.json", some Json.null⟩,
               ⟨"notification", none⟩])
        (some [⟨"block_added.request.json", some Json.null⟩])).1 = .ok b ∧
      (b.methods.map Prod.fst).Nodup ∧
      (∀ k, k ∈ b.methods.map Prod.fst ↔
        (∃ e ∈ [DirEntry.mk "lightning-getinfo.json" (some getinfoSchema),
                DirEntry.mk "lightning-sql.json" (some Json.null),
                DirEntry.mk "notification" none], e.name = k) ∧
        methodFileFilter k = true) ∧
      (b.notifications.map Prod.fst).Nodup ∧
      (∀ k, k ∈ b.notifications.map Prod.fst ↔
        (∃ e ∈ [DirEntry.mk "block_added.request.json" (some Json.null)],
          e.name = k) ∧
        notificationFileFilter k = true) :=
  c5_completeness _ _ (by decide) (by decide) (by decide) (by decide)

/-- C6: `combine_schemas` is deterministic: two listings holding the same
files (in any enumeration order) produce identical results, including a
byte-identical serialized artifact, because the enumeration is sorted by
file name before use. -/
theorem c6_determinism (m1 m2 n1 n2 : List DirEntry)
    (hm : m1.Perm m2) (hn : n1.Perm n2)
    (hmd : (m1.map DirEntry.name).Nodup) (hnd : (n1.map DirEntry.name).Nodup) :
    combine_schemas (some m1) (some n1) = combine_schemas (some m2) (some n2) := by
  have e1 := sortDir_eq_of_perm m1 m2 hm hmd
  have e2 := sortDir_eq_of_perm n1 n2 hn hnd
  simp only [combine_schemas, e1, e2]

/-- Witness for C6: the same two files listed in the two possible orders
produce identical output. -/
theorem c6_determinism_witness :
    combine_schemas
        (some [⟨"lightning-b.json", some Json.null⟩,
               ⟨"lightning-a.json", some (Json.obj [])⟩]) (some []) =
      combine_schemas
        (some [⟨"lightning-a.json", some (Json.obj [])⟩,
               ⟨"lightning-b.json", some Json.null⟩]) (some []) :=
  c6_determinism _ _ _ _ (List.Perm.swap _ _ _) (List.Perm.refl _)
    (by decide) (by decide)

/-- C7: when `combine_schemas` fails — the schema directory or its
notification subdirectory missing, or an included file unparseable — nothing
is written to the destination; and a file whose name fails the extension
filter is silently skipped (removing it changes nothing), never an error. -/
theorem c7_error_handling :
    (∀ md nd e, (combine_schemas md nd).1 = .error e →
      (combine_schemas md nd).2 = none) ∧
    (∀ nd, combine_schemas none nd = (.error .sourceReadError, none)) ∧
    (∀ mfiles, (combine_schemas (some mfiles) none).2 = none) ∧
    (∀ mfiles nd e, e ∈ mfiles → methodFileFilter e.name = true →
      e.content = none →
      ∃ er, (combine_schemas (some mfiles) nd).1 = .error er) ∧
    (∀ mfiles nfiles e, e ∈ nfiles → notificationFileFilter e.name = true →
      e.content = none →
      ∃ er, (combine_schemas (some mfiles) (some nfiles)).1 = .error er) ∧
    (∀ e mfiles nd, methodFileFilter e.name = false →
      combine_schemas (some (e :: mfiles)) nd = combine_schemas (some mfiles) nd) ∧
    (∀ e nfiles md, notificationFileFilter e.name = false →
      combine_schemas md (some (e :: nfiles)) = combine_schemas md (some nfiles)) := by
  refine ⟨?_, ?_, ?_, ?_, ?_, ?_, ?_⟩
  · intro md nd e h
    cases md with
    | none => rfl
    | some m =>
      cases hp : parseEntries methodFileFilter (sortDir m) with
      | error er => simp [combine_schemas, hp]
      | ok mk =>
        cases nd with
        | none => simp [combine_schemas, hp]
        | some n =>
          cases hq : parseEntries notificationFileFilter (sortDir n) with
          | error er => simp [combine_schemas, hp, hq]
          | ok nk => simp [combine_schemas, hp, hq] at h
  · intro nd; rfl
  · intro mfiles
    cases hp : parseEntries methodFileFilter (sortDir mfiles) with
    | error er => simp [combine_schemas, hp]
    | ok mk => simp [combine_schemas, hp]
  · intro mfiles nd e hmem hp hc
    obtain ⟨er, her⟩ := parseEntries_error methodFileFilter (sortDir mfiles) e
      ((sortDir_perm mfiles).mem_iff.mpr hmem) hp hc
    exact ⟨er, by simp [combine_schemas, her]⟩
  · intro mfiles nfiles e hmem hp hc
    obtain ⟨er, her⟩ := parseEntries_error notificationFileFilter (sortDir nfiles) e
      ((sortDir_perm nfiles).mem_iff.mpr hmem) hp hc
    cases hq : parseEntries methodFileFilter (sortDir mfiles) with
    | error er2 => exact ⟨er2, by simp [combine_schemas, hq]⟩
    | ok mk => exact ⟨er, by simp [combine_schemas, hq, her]⟩
  · intro e mfiles nd hfe
    have hskip : parseEntries methodFileFilter (sortDir (e :: mfiles)) =
        parseEntries methodFileFilter (sortDir mfiles) := by
      rw [sortDir_cons]; exact parseEntries_skip _ e hfe _
    simp only [combine_schemas, hskip]
  · intro e nfiles md hfe
    have hskip : parseEntries notificationFileFilter (sortDir (e :: nfiles)) =
        parseEntries notificationFileFilter (sortDir nfiles) := by
      rw [sortDir_cons]; exact parseEntries_skip _ e hfe _
    cases md with
    | none => rfl
    | some m => simp only [combine_schemas, hskip]

/-- Witness for C7: a missing schema directory writes nothing; one
unparseable matching file makes the run fail; a file whose name fails the
filter (`README.md`, unparseable) is skipped without any effect. -/
theorem c7_error_handling_witness :
    (combine_schemas none (some [])).2 = none ∧
    (∃ er, (combine_schemas (some [⟨"bad.json", none⟩]) (some [])).1 =
      .error er) ∧
    combine_schemas (some [⟨"README.md", none⟩]) (some []) =
      combine_schemas (some []) (some []) := by
  refine ⟨?_, ?_, ?_⟩
  · exact c7_error_handling.1 none (some []) .sourceReadError rfl
  · exact c7_error_handling.2.2.2.1 [⟨"bad.json", none⟩] (some [])
      ⟨"bad.json", none⟩ (List.mem_singleton.mpr rfl) (by decide) rfl
  · exact c7_error_handling.2.2.2.2.2.1 ⟨"README.md", none⟩ [] (some [])
      (by decide)

/-- C8: the artifact written by `combine_schemas` is the serialization, with
2-space indentation, of a document with exactly the two top-level keys
`methods` and `notifications`, each mapping file names to their parsed
content, with keys in the lexicographic order of the enumerated file
names. -/
theorem c8_artifact (mfiles nfiles : List DirEntry)
    (hm : ∀ e ∈ mfiles, methodFileFilter e.name = true → e.content.isSome = true)
    (hn : ∀ e ∈ nfiles, notificationFileFilter e.name = true → e.content.isSome = true) :
    ∃ b, (combine_schemas (some mfiles) (some nfiles)).1 = .ok b ∧
      (combine_schemas (some mfiles) (some nfiles)).2 =
        some (dumpJson 2 0 (Json.obj
          [("methods", Json.obj b.methods),
           ("notifications", Json.obj b.notifications)])) ∧
      List.Sorted (fun a b => str_le a b = true) (b.methods.map Prod.fst) ∧
      List.Sorted (fun a b => str_le a b = true) (b.notifications.map Prod.fst) := by
  obtain ⟨mkvs, hmk, hmmap⟩ := parseEntries_ok methodFileFilter (sortDir mfiles)
    (fun e he => hm e ((sortDir_perm mfiles).subset he))
  obtain ⟨nkvs, hnk, hnmap⟩ := parseEntries_ok notificationFileFilter (sortDir nfiles)
    (fun e he => hn e ((sortDir_perm nfiles).subset he))
  refine ⟨⟨mkvs, nkvs⟩, ?_, ?_, ?_, ?_⟩
  · simp [combine_schemas, hmk, hnk]
  · simp [combine_schemas, hmk, hnk, bundleJson]
  · rw [hmmap]; exact sortDir_keys_sorted methodFileFilter mfiles
  · rw [hnmap]; exact sortDir_keys_sorted notificationFileFilter nfiles

/-- Witness for C8 at a concrete pair of listings, enumerated out of
order. -/
theorem c8_artifact_witness :
    ∃ b, (combine_schemas
        (some [⟨"lightning-b.json", some Json.null⟩,
               ⟨"lightning-a.json", some (Json.bool true)⟩])
        (some [⟨"y.json", some Json.null⟩, ⟨"x.json", some Json.null⟩])).1 =
        .ok b ∧
      (combine_schemas
        (some [⟨"lightning-b.json", some Json.null⟩,
               ⟨"lightning-a.json", some (Json.bool true)⟩])
        (some [⟨"y.json", some Json.null⟩, ⟨"x.json", some Json.null⟩])).2 =
        some (dumpJson 2 0 (Json.obj
          [("methods", Json.obj b.methods),
           ("notifications", Json.obj b.notifications)])) ∧
      List.Sorted (fun a b => str_le a b = true) (b.methods.map Prod.fst) ∧
      List.Sorted (fun a b => str_le a b = true) (b.notifications.map Prod.fst) :=
  c8_artifact _ _ (by decide) (by decide)

/-- Witness for C4: a first call caches `{}`; a second call whose storage
layer fails still returns the cached value. -/
theorem c4_cache_singleton_witness :
    get_schema_bundle (fun _ => .error .sourceReadError) ⟨some (Json.obj [])⟩ =
      .ok (Json.obj [], ⟨some (Json.obj [])⟩) :=
  c4_cache_singleton (fun _ => .ok (Json.obj []))
    (fun _ => .error .sourceReadError) (Json.obj []) ⟨some (Json.obj [])⟩ rfl

/-- C9: when every manifest entry resolves, `load_jsonrpc_service` returns a
`Service` with one `Method` per active manifest method name in declared
order, one `Notification` per active descriptor in declared order, and
`includes` equal to the fixed `["primitives.proto"]`; and conversely a
returned `Service` means every loader succeeded — a loader failure
propagates and no partial `Service` is returned. -/
theorem c9_service_assembly (schema : SchemaBundle) :
    ((∀ n ∈ method_names, isOkE (load_jsonrpc_method schema n) = true) ∧
     (∀ p ∈ notification_names, isOkE (load_notification schema p.1 p.2) = true) →
      ∃ s, load_jsonrpc_service schema = .ok s ∧
        s.methods.map Method.name = method_names ∧
        s.notifications.map Notification.name = notification_names.map Prod.fst ∧
        s.includes = ["primitives.proto"]) ∧
    (∀ s, load_jsonrpc_service schema = .ok s →
      (∀ n ∈ method_names, isOkE (load_jsonrpc_method schema n) = true) ∧
      (∀ p ∈ notification_names, isOkE (load_notification schema p.1 p.2) = true)) := by
  constructor
  · rintro ⟨hm, hn⟩
    obtain ⟨ms, hms, hfm⟩ := mapE_ok_of_forall _ method_names hm
    obtain ⟨ns, hns, hfn⟩ := mapE_ok_of_forall _ notification_names hn
    refine ⟨{ name := "Node", methods := ms, notifications := ns,
              includes := ["primitives.proto"] }, ?_, ?_, ?_, rfl⟩
    · simp [load_jsonrpc_service, hms, hns]
    · exact methods_map_name schema _ _ hfm
    · exact notifications_map_name schema _ _ hfn
  · intro s h
    simp only [load_jsonrpc_service] at h
    split at h
    · cases h
    · rename_i ms hms
      split at h
      · cases h
      · rename_i ns hns
        exact ⟨forall2_isOkE _ _ _ (mapE_forall_of_ok _ _ _ hms),
               forall2_isOkE _ _ _ (mapE_forall_of_ok _ _ _ hns)⟩

set_option maxRecDepth 10000 in
set_option maxHeartbeats 1000000 in
/-- Witness for C9: the assembly over a complete concrete bundle holding one
schema per manifest entry. -/
theorem c9_service_assembly_witness :
    ∃ s, load_jsonrpc_service fullBundle = .ok s ∧
      s.methods.map Method.name = method_names ∧
      s.notifications.map Notification.name = notification_names.map Prod.fst ∧
      s.includes = ["primitives.proto"] :=
  (c9_service_assembly fullBundle).1 ⟨by decide, by decide⟩

/-- C10: whenever `load_jsonrpc_service` returns, the `Service` has the
constant name `Node`, exactly 96 methods and 5 notifications — one per
active, non-commented manifest entry — whatever the schema contents. -/
theorem c10_fixed_shape (schema : SchemaBundle) (s : Service)
    (h : load_jsonrpc_service schema = .ok s) :
    s.name = "Node" ∧ s.methods.length = 96 ∧ s.notifications.length = 5 := by
  simp only [load_jsonrpc_service] at h
  split at h
  · cases h
  · rename_i ms hms
    split at h
    · cases h
    · rename_i ns hns
      cases h
      refine ⟨rfl, ?_, ?_⟩
      · rw [← (mapE_forall_of_ok _ _ _ hms).length_eq]; decide
      · rw [← (mapE_forall_of_ok _ _ _ hns).length_eq]; decide

set_option maxRecDepth 10000 in
set_option maxHeartbeats 1000000 in
/-- Witness for C10: the shape of the service assembled over the complete
concrete bundle. -/
theorem c10_fixed_shape_witness :
    ∃ s, load_jsonrpc_service fullBundle = .ok s ∧
      s.name = "Node" ∧ s.methods.length = 96 ∧ s.notifications.length = 5 := by
  cases h : load_jsonrpc_service fullBundle with
  | error e =>
    have hok : isOkE (load_jsonrpc_service fullBundle) = true := by decide
    rw [h] at hok
    exact absurd hok (by simp [isOkE])
  | ok s => exact ⟨s, rfl, c10_fixed_shape fullBundle s h⟩

end Msggen
